import Mathlib

/-!
Verification development for a classical chess engine consisting of a static
evaluator (Eval.hpp) and an alpha-beta search driver (test.cpp).  The engine
consumes an external rules library (bitboard primitives, move generation,
make and unmake, game-over detection); that library is not part of the
repository, so it is modelled here from the specification with standard chess
semantics.  Everything from Eval.hpp and test.cpp is translated directly from
the source.

Machine integers: the C++ code uses 64-bit unsigned bitboards and signed int
scores.  Bitboards are modelled as Nat masked to 64 bits where the C++ type
wraps; scores are modelled as Int (the scores reached here are far from the
int range limits).
-/

namespace Chess

/-- Piece colors. -/
inductive Color where
  | white
  | black
deriving DecidableEq, Repr, BEq

/-- The opposite color (operator ~ of the rules library). -/
def Color.other : Color → Color
  | .white => .black
  | .black => .white

/-- Piece kinds. -/
inductive PieceType where
  | pawn
  | knight
  | bishop
  | rook
  | queen
  | king
deriving DecidableEq, Repr, BEq

/-- Move classification flags, as carried by the rules library move type. -/
inductive MoveType where
  | normal
  | promotion
  | enpassant
  | castling
deriving DecidableEq, Repr, BEq

/-- Modelled from the spec: a move carries source, destination, an optional
promotion piece and a classification flag.  A default-constructed move (the
rules library encodes moves as the integer 0) has both squares 0.  Castling
moves are encoded king-square to rook-square, following the rules library. -/
structure Move where
  fromSq : Nat
  toSq : Nat
  ty : MoveType := .normal
  promo : PieceType := .knight
deriving DecidableEq, Repr, BEq

instance : Inhabited Move := ⟨⟨0, 0, .normal, .knight⟩⟩

/-- All bits of a 64-bit word. -/
def mask64 : Nat := 2 ^ 64 - 1

/-- 64-bit complement (operator ~ on uint64). -/
def compl64 (b : Nat) : Nat := mask64 ^^^ (b &&& mask64)

/-- 64-bit left shift with wraparound discard (uint64 shift). -/
def shl64 (b k : Nat) : Nat := (b <<< k) &&& mask64

/-- Bitboard of a file (file 0 = file A).  Square indexing is rank-major with
A1 = 0 and H8 = 63, as specified. -/
def fileBB (f : Nat) : Nat := shl64 0x0101010101010101 f

/-- Bitboard of a rank (rank 0 = rank 1). -/
def rankBB (r : Nat) : Nat := shl64 0xFF (8 * r)

/-- Number of set bits among the low 64 bits. -/
def bcount (b : Nat) : Nat := ((List.range 64).filter (fun i => b.testBit i)).length

/-- The set bits of a 64-bit word in ascending order.  The source iterates
bitboards by repeatedly taking and popping the least significant bit, which
visits exactly these indices in this order. -/
def bitsAsc (b : Nat) : List Nat := (List.range 64).filter (fun i => b.testBit i)

namespace BitOp

/-- Shifts the bitboard left (towards file A); bits on file A are erased. -/
def shift_left (bitboard : Nat) : Nat := (bitboard >>> 1) &&& compl64 (fileBB 7)

/-- Shifts the bitboard right (towards file H); bits on file H are erased. -/
def shift_right (bitboard : Nat) : Nat := shl64 bitboard 1 &&& compl64 (fileBB 0)

/-- Shifts all bits backwards: white down, black up. -/
def shift_backward (bitboard : Nat) (color : Color) : Nat :=
  if color = .white then bitboard >>> 8 else shl64 bitboard 8

/-- Shifts all bits down (towards the white pieces). -/
def shift_down (bitboard : Nat) : Nat := shift_backward bitboard .white

/-- Shifts all bits forwards: white up, black down. -/
def shift_forward (bitboard : Nat) (color : Color) : Nat :=
  if color = .white then shl64 bitboard 8 else bitboard >>> 8

/-- Shifts all bits up (towards the black pieces). -/
def shift_up (bitboard : Nat) : Nat := shift_forward bitboard .white

/-- Sets all surrounding bits of each set bit to 1, keeping the original. -/
def expand_bits (bitboard : Nat) : Nat :=
  let left_shift := shift_left bitboard
  let right_shift := shift_right bitboard
  let up_shift := shift_up bitboard
  let down_shift := shift_down bitboard
  let up_left := shift_left up_shift
  let up_right := shift_right up_shift
  let down_left := shift_left down_shift
  let down_right := shift_right down_shift
  bitboard ||| left_shift ||| right_shift ||| up_shift ||| down_shift |||
    up_left ||| up_right ||| down_left ||| down_right

/-- Translated from the source: the function is documented there as expanding
the bits and then clearing the original bit, but the returned expression is
the 64-bit complement of the input joined with the eight shifts. -/
def get_surrounding_bits (bitboard : Nat) : Nat :=
  let left_shift := shift_left bitboard
  let right_shift := shift_right bitboard
  let up_shift := shift_up bitboard
  let down_shift := shift_down bitboard
  let up_left := shift_left up_shift
  let up_right := shift_right up_shift
  let down_left := shift_left down_shift
  let down_right := shift_right down_shift
  compl64 bitboard ||| left_shift ||| right_shift ||| up_shift ||| down_shift |||
    up_left ||| up_right ||| down_left ||| down_right

end BitOp

namespace Helper

/-- Returns true if the intersection of two bitboards contains no set bit. -/
def is_empty (b1 b2 : Nat) : Bool := b1 &&& b2 == 0

/-- Returns true if the intersection of two bitboards contains a set bit. -/
def any (b1 b2 : Nat) : Bool := !is_empty b1 b2

end Helper

/-- Whether integer coordinates (file, rank) lie on the board. -/
def inBoard (f r : Int) : Bool := 0 ≤ f && f < 8 && 0 ≤ r && r < 8

/-- Single-square bitboard at integer coordinates, empty when off the board. -/
def coordBB (f r : Int) : Nat :=
  if inBoard f r then 1 <<< (r.toNat * 8 + f.toNat) else 0

/-- File coordinate of a square index. -/
def fileOf (sq : Nat) : Nat := sq % 8

/-- Rank coordinate of a square index. -/
def rankOf (sq : Nat) : Nat := sq / 8

/-- Union of the offset squares reachable from sq by the given coordinate
deltas, clipped at the board edge. -/
def leaperAttacks (deltas : List (Int × Int)) (sq : Nat) : Nat :=
  deltas.foldl
    (fun acc d => acc ||| coordBB ((fileOf sq : Int) + d.1) ((rankOf sq : Int) + d.2)) 0

/-- Modelled from the spec: the rules library attack helper for knights. -/
def knightAttacks (sq : Nat) : Nat :=
  leaperAttacks [(1, 2), (2, 1), (2, -1), (1, -2), (-1, -2), (-2, -1), (-2, 1), (-1, 2)] sq

/-- Modelled from the spec: the rules library attack helper for kings. -/
def kingAttacks (sq : Nat) : Nat :=
  leaperAttacks [(1, 0), (1, 1), (0, 1), (-1, 1), (-1, 0), (-1, -1), (0, -1), (1, -1)] sq

/-- Modelled from the spec: squares attacked by a pawn of the given color
standing on sq (the two forward diagonals). -/
def pawnAttacks (c : Color) (sq : Nat) : Nat :=
  match c with
  | .white => leaperAttacks [(-1, 1), (1, 1)] sq
  | .black => leaperAttacks [(-1, -1), (1, -1)] sq

/-- One sliding ray from the given coordinates: advances square by square,
includes each reached square and stops after the first occupied one. -/
def rayAux (occ : Nat) (df dr : Int) : Nat → Int → Int → Nat
  | 0, _, _ => 0
  | fuel + 1, f, r =>
    let f1 := f + df
    let r1 := r + dr
    if inBoard f1 r1 then
      let b := r1.toNat * 8 + f1.toNat
      (1 <<< b) ||| (if occ.testBit b then 0 else rayAux occ df dr fuel f1 r1)
    else 0

/-- Ray attack set from a square in one direction against an occupancy. -/
def ray (sq : Nat) (occ : Nat) (df dr : Int) : Nat :=
  rayAux occ df dr 7 (fileOf sq : Int) (rankOf sq : Int)

/-- Modelled from the spec: rules library bishop ray attacks against the
current occupancy (blocker squares are included in the attack set). -/
def bishopAttacks (sq occ : Nat) : Nat :=
  ray sq occ 1 1 ||| ray sq occ 1 (-1) ||| ray sq occ (-1) 1 ||| ray sq occ (-1) (-1)

/-- Modelled from the spec: rules library rook ray attacks. -/
def rookAttacks (sq occ : Nat) : Nat :=
  ray sq occ 1 0 ||| ray sq occ (-1) 0 ||| ray sq occ 0 1 ||| ray sq occ 0 (-1)

/-- Modelled from the spec: rules library queen attacks. -/
def queenAttacks (sq occ : Nat) : Nat := bishopAttacks sq occ ||| rookAttacks sq occ

/-- Modelled from the spec: the rules library position.  Bit-occupancy for
each color and piece kind, side to move, castling rights, en-passant target
and half-move counter. -/
structure Position where
  wPawn : Nat := 0
  wKnight : Nat := 0
  wBishop : Nat := 0
  wRook : Nat := 0
  wQueen : Nat := 0
  wKing : Nat := 0
  bPawn : Nat := 0
  bKnight : Nat := 0
  bBishop : Nat := 0
  bRook : Nat := 0
  bQueen : Nat := 0
  bKing : Nat := 0
  stm : Color := .white
  castleWK : Bool := false
  castleWQ : Bool := false
  castleBK : Bool := false
  castleBQ : Bool := false
  ep : Option Nat := none
  halfmove : Nat := 0
deriving DecidableEq, Repr, BEq

/-- The bitboard of one (piece kind, color) pair. -/
def Position.pieces (pos : Position) (t : PieceType) (c : Color) : Nat :=
  match c, t with
  | .white, .pawn => pos.wPawn
  | .white, .knight => pos.wKnight
  | .white, .bishop => pos.wBishop
  | .white, .rook => pos.wRook
  | .white, .queen => pos.wQueen
  | .white, .king => pos.wKing
  | .black, .pawn => pos.bPawn
  | .black, .knight => pos.bKnight
  | .black, .bishop => pos.bBishop
  | .black, .rook => pos.bRook
  | .black, .queen => pos.bQueen
  | .black, .king => pos.bKing

/-- All pieces of one color. -/
def Position.usBB (pos : Position) (c : Color) : Nat :=
  match c with
  | .white => pos.wPawn ||| pos.wKnight ||| pos.wBishop ||| pos.wRook ||| pos.wQueen ||| pos.wKing
  | .black => pos.bPawn ||| pos.bKnight ||| pos.bBishop ||| pos.bRook ||| pos.bQueen ||| pos.bKing

/-- Full occupancy. -/
def Position.occBB (pos : Position) : Nat := pos.usBB .white ||| pos.usBB .black

/-- The square of the king of one color. -/
def Position.kingSq (pos : Position) (c : Color) : Nat :=
  (bitsAsc (pos.pieces .king c)).headD 0

/-- The piece standing on a square, if any. -/
def Position.pieceAt (pos : Position) (sq : Nat) : Option (Color × PieceType) :=
  if pos.wPawn.testBit sq then some (.white, .pawn)
  else if pos.wKnight.testBit sq then some (.white, .knight)
  else if pos.wBishop.testBit sq then some (.white, .bishop)
  else if pos.wRook.testBit sq then some (.white, .rook)
  else if pos.wQueen.testBit sq then some (.white, .queen)
  else if pos.wKing.testBit sq then some (.white, .king)
  else if pos.bPawn.testBit sq then some (.black, .pawn)
  else if pos.bKnight.testBit sq then some (.black, .knight)
  else if pos.bBishop.testBit sq then some (.black, .bishop)
  else if pos.bRook.testBit sq then some (.black, .rook)
  else if pos.bQueen.testBit sq then some (.black, .queen)
  else if pos.bKing.testBit sq then some (.black, .king)
  else none

/-- Whether square sq is attacked by at least one piece of color c.  Same
attacker detection as the attack helpers of the rules library: a piece of a
given kind on some square attacks sq iff sq would attack it back with the
matching attack set. -/
def Position.attackedBy (pos : Position) (sq : Nat) (c : Color) : Bool :=
  Helper.any (pawnAttacks c.other sq) (pos.pieces .pawn c) ||
  Helper.any (knightAttacks sq) (pos.pieces .knight c) ||
  Helper.any (kingAttacks sq) (pos.pieces .king c) ||
  Helper.any (bishopAttacks sq pos.occBB) (pos.pieces .bishop c) ||
  Helper.any (rookAttacks sq pos.occBB) (pos.pieces .rook c) ||
  Helper.any (queenAttacks sq pos.occBB) (pos.pieces .queen c)

/-- Remove whatever piece stands on a square. -/
def Position.clearSq (pos : Position) (sq : Nat) : Position :=
  let m := compl64 (1 <<< sq)
  { pos with
    wPawn := pos.wPawn &&& m, wKnight := pos.wKnight &&& m, wBishop := pos.wBishop &&& m,
    wRook := pos.wRook &&& m, wQueen := pos.wQueen &&& m, wKing := pos.wKing &&& m,
    bPawn := pos.bPawn &&& m, bKnight := pos.bKnight &&& m, bBishop := pos.bBishop &&& m,
    bRook := pos.bRook &&& m, bQueen := pos.bQueen &&& m, bKing := pos.bKing &&& m }

/-- Put a piece of the given kind and color on a square (over an empty one). -/
def Position.putPiece (pos : Position) (sq : Nat) (t : PieceType) (c : Color) : Position :=
  let b := 1 <<< sq
  match c, t with
  | .white, .pawn => { pos with wPawn := pos.wPawn ||| b }
  | .white, .knight => { pos with wKnight := pos.wKnight ||| b }
  | .white, .bishop => { pos with wBishop := pos.wBishop ||| b }
  | .white, .rook => { pos with wRook := pos.wRook ||| b }
  | .white, .queen => { pos with wQueen := pos.wQueen ||| b }
  | .white, .king => { pos with wKing := pos.wKing ||| b }
  | .black, .pawn => { pos with bPawn := pos.bPawn ||| b }
  | .black, .knight => { pos with bKnight := pos.bKnight ||| b }
  | .black, .bishop => { pos with bBishop := pos.bBishop ||| b }
  | .black, .rook => { pos with bRook := pos.bRook ||| b }
  | .black, .queen => { pos with bQueen := pos.bQueen ||| b }
  | .black, .king => { pos with bKing := pos.bKing ||| b }

/-- Castling rights after a move touching the given squares: moving the king
or a rook, or a capture on a rook home square, clears the matching right. -/
def updateCastle (pos : Position) (fromSq toSq : Nat) : Position :=
  { pos with
    castleWK := pos.castleWK && fromSq ≠ 4 && fromSq ≠ 7 && toSq ≠ 7
    castleWQ := pos.castleWQ && fromSq ≠ 4 && fromSq ≠ 0 && toSq ≠ 0
    castleBK := pos.castleBK && fromSq ≠ 60 && fromSq ≠ 63 && toSq ≠ 63
    castleBQ := pos.castleBQ && fromSq ≠ 60 && fromSq ≠ 56 && toSq ≠ 56 }

/-- Modelled from the spec: application of a move to a position (the make
half of make and unmake).  Handles captures, promotions, en passant and
castling, updates castling rights, the en-passant target and the half-move
counter, and flips the side to move. -/
def applyMove (pos : Position) (m : Move) : Position :=
  let c := pos.stm
  let isCap := (pos.pieceAt m.toSq).isSome || m.ty = .enpassant
  let moved := match pos.pieceAt m.fromSq with
    | some (_, t) => t
    | none => .pawn
  let pos1 : Position :=
    match m.ty with
    | .castling =>
      -- encoded king-from to rook-from; the king and rook land on the
      -- standard castled squares
      let kingside := m.toSq > m.fromSq
      let kTo := if kingside then m.fromSq + 2 else m.fromSq - 2
      let rTo := if kingside then m.fromSq + 1 else m.fromSq - 1
      ((((pos.clearSq m.fromSq).clearSq m.toSq).putPiece kTo .king c).putPiece rTo .rook c)
    | .enpassant =>
      let capSq := if c = .white then m.toSq - 8 else m.toSq + 8
      (((pos.clearSq m.fromSq).clearSq capSq).putPiece m.toSq .pawn c)
    | .promotion =>
      (((pos.clearSq m.fromSq).clearSq m.toSq).putPiece m.toSq m.promo c)
    | .normal =>
      (((pos.clearSq m.fromSq).clearSq m.toSq).putPiece m.toSq moved c)
  let pos2 := updateCastle pos1 m.fromSq m.toSq
  let newEp : Option Nat :=
    if moved = .pawn && (m.toSq + 16 = m.fromSq || m.fromSq + 16 = m.toSq) then
      some ((m.fromSq + m.toSq) / 2)
    else none
  { pos2 with
    stm := c.other
    ep := newEp
    halfmove := if moved = .pawn || isCap then 0 else pos.halfmove + 1 }

/-- Pawn moves (pushes, double pushes, captures, promotions, en passant)
from one square. -/
def pawnMovesFrom (pos : Position) (c : Color) (sq : Nat) : List Move :=
  let occ := pos.occBB
  let enemy := pos.usBB c.other
  let fwd : Int := if c = .white then (sq : Int) + 8 else (sq : Int) - 8
  let startRank := if c = .white then 1 else 6
  let promoRank := if c = .white then 6 else 1
  let promos : List PieceType := [.queen, .rook, .bishop, .knight]
  let pushes : List Move :=
    if 0 ≤ fwd && fwd < 64 && !occ.testBit fwd.toNat then
      (if rankOf sq = promoRank then
        promos.map (fun p => { fromSq := sq, toSq := fwd.toNat, ty := .promotion, promo := p })
      else [{ fromSq := sq, toSq := fwd.toNat }]) ++
      (if rankOf sq = startRank then
        let fwd2 := if c = .white then sq + 16 else sq - 16
        if !occ.testBit fwd2 then [{ fromSq := sq, toSq := fwd2 }] else []
      else [])
    else []
  let caps : List Move :=
    (bitsAsc (pawnAttacks c sq &&& enemy)).flatMap (fun t =>
      if rankOf sq = promoRank then
        promos.map (fun p => { fromSq := sq, toSq := t, ty := .promotion, promo := p })
      else [{ fromSq := sq, toSq := t }])
  let epMoves : List Move :=
    match pos.ep with
    | some e => if (pawnAttacks c sq).testBit e then
        [{ fromSq := sq, toSq := e, ty := .enpassant }] else []
    | none => []
  pushes ++ caps ++ epMoves

/-- Castling moves available to the side to move, encoded king-square to
rook-square: rights intact, path empty, king not passing through check. -/
def castleMoves (pos : Position) (c : Color) : List Move :=
  let e := c.other
  let base := if c = .white then 0 else 56
  let kSq := base + 4
  let occ := pos.occBB
  let kingHome := (pos.pieces .king c).testBit kSq
  let ks :=
    if (if c = .white then pos.castleWK else pos.castleBK) && kingHome &&
        (pos.pieces .rook c).testBit (base + 7) &&
        !occ.testBit (base + 5) && !occ.testBit (base + 6) &&
        !pos.attackedBy kSq e && !pos.attackedBy (base + 5) e && !pos.attackedBy (base + 6) e then
      [{ fromSq := kSq, toSq := base + 7, ty := MoveType.castling }]
    else []
  let qs :=
    if (if c = .white then pos.castleWQ else pos.castleBQ) && kingHome &&
        (pos.pieces .rook c).testBit base &&
        !occ.testBit (base + 1) && !occ.testBit (base + 2) && !occ.testBit (base + 3) &&
        !pos.attackedBy kSq e && !pos.attackedBy (base + 3) e && !pos.attackedBy (base + 2) e then
      [{ fromSq := kSq, toSq := base, ty := MoveType.castling }]
    else []
  ks ++ qs

/-- All pseudo-legal moves of the side to move. -/
def pseudoMoves (pos : Position) : List Move :=
  let c := pos.stm
  let own := pos.usBB c
  let occ := pos.occBB
  let pieceTargets := fun (atk : Nat) (sq : Nat) =>
    (bitsAsc (atk &&& compl64 own)).map (fun t => { fromSq := sq, toSq := t : Move })
  (bitsAsc (pos.pieces .pawn c)).flatMap (pawnMovesFrom pos c) ++
  (bitsAsc (pos.pieces .knight c)).flatMap (fun sq => pieceTargets (knightAttacks sq) sq) ++
  (bitsAsc (pos.pieces .bishop c)).flatMap (fun sq => pieceTargets (bishopAttacks sq occ) sq) ++
  (bitsAsc (pos.pieces .rook c)).flatMap (fun sq => pieceTargets (rookAttacks sq occ) sq) ++
  (bitsAsc (pos.pieces .queen c)).flatMap (fun sq => pieceTargets (queenAttacks sq occ) sq) ++
  (bitsAsc (pos.pieces .king c)).flatMap (fun sq => pieceTargets (kingAttacks sq) sq) ++
  castleMoves pos c

/-- Modelled from the spec: the rules library legal move list: pseudo-legal
moves whose application leaves the moving side king out of check. -/
def legalMovesPos (pos : Position) : List Move :=
  (pseudoMoves pos).filter (fun m =>
    let p1 := applyMove pos m
    !p1.attackedBy (p1.kingSq pos.stm) pos.stm.other)

/-- Modelled from the spec: the rules library board: the current position
together with the stack of previous positions recorded by make and popped by
unmake. -/
structure Board where
  pos : Position
  hist : List Position := []
deriving DecidableEq, Repr, BEq

/-- Make a move: record the current position and apply the move. -/
def makeMove (b : Board) (m : Move) : Board :=
  { pos := applyMove b.pos m, hist := b.pos :: b.hist }

/-- Unmake a move: restore the recorded previous position. -/
def unmakeMove (b : Board) (_ : Move) : Board :=
  match b.hist with
  | [] => b
  | p :: rest => { pos := p, hist := rest }

/-- Legal moves of a board. -/
def legalMoves (b : Board) : List Move := legalMovesPos b.pos

/-- Whether the side to move is in check. -/
def inCheckB (b : Board) : Bool :=
  b.pos.attackedBy (b.pos.kingSq b.pos.stm) b.pos.stm.other

/-- Game-over reasons reported by the rules library. -/
inductive GameResultReason where
  | checkmate
  | stalemate
  | insufficient
  | fifty
  | threefold
  | none
deriving DecidableEq, Repr, BEq

/-- Game results reported by the rules library, relative to the side to
move: checkmate yields lose for the mated side to move. -/
inductive GameResult where
  | win
  | lose
  | draw
  | none
deriving DecidableEq, Repr, BEq

/-- Modelled from the spec: insufficient mating material (bare kings, or a
single minor piece besides the kings). -/
def insufficientMaterial (pos : Position) : Bool :=
  pos.wPawn == 0 && pos.bPawn == 0 && pos.wRook == 0 && pos.bRook == 0 &&
  pos.wQueen == 0 && pos.bQueen == 0 &&
  bcount (pos.wKnight ||| pos.wBishop ||| pos.bKnight ||| pos.bBishop) ≤ 1

/-- Modelled from the spec: the rules library game-over query.  Draw by the
half-move clock, insufficient material or repetition is checked first; then,
when the side to move has no legal move, checkmate (result lose, relative to
the side to move) or stalemate.  A decided game never reports win for the
side to move. -/
def isGameOver (b : Board) : GameResultReason × GameResult :=
  if b.pos.halfmove ≥ 100 then (.fifty, .draw)
  else if insufficientMaterial b.pos then (.insufficient, .draw)
  else if 2 ≤ b.hist.countP (fun p => p == b.pos) then (.threefold, .draw)
  else if legalMovesPos b.pos = [] then
    (if inCheckB b then (.checkmate, .lose) else (.stalemate, .draw))
  else (.none, .none)

/-- Modelled from the spec: the rules library position hash.  A collision-free
encoding of the piece placement, side to move, castling rights and en-passant
target stands in for Zobrist hashing. -/
def posHash (pos : Position) : Nat :=
  let pieceCode := fun (sq : Nat) =>
    match pos.pieceAt sq with
    | Option.none => 0
    | some (c, t) =>
      (match t with
       | .pawn => 1 | .knight => 2 | .bishop => 3
       | .rook => 4 | .queen => 5 | .king => 6) +
      (match c with | .white => 0 | .black => 6)
  let placement := (List.range 64).foldl (fun acc sq => acc * 13 + pieceCode sq) 0
  let castleCode := (if pos.castleWK then 1 else 0) + (if pos.castleWQ then 2 else 0) +
    (if pos.castleBK then 4 else 0) + (if pos.castleBQ then 8 else 0)
  let epCode := match pos.ep with | Option.none => 64 | some e => e
  ((placement * 2 + (if pos.stm = .white then 0 else 1)) * 16 + castleCode) * 65 + epCode

/-- Per-kind attacker presence counts for one square, as built by the helper
isAttackedCount of the source: each field is 1 when at least one piece of
that kind and color attacks the square, else 0. -/
structure AtkCnt where
  p : Int := 0
  n : Int := 0
  k : Int := 0
  b : Int := 0
  r : Int := 0
  q : Int := 0
deriving DecidableEq, Repr

/-- Returns the per-kind counts of pieces of the given color attacking the
square, following the source helper. -/
def isAttackedCount (pos : Position) (sq : Nat) (color : Color) : AtkCnt :=
  { p := if Helper.any (pawnAttacks color.other sq) (pos.pieces .pawn color) then 1 else 0
    n := if Helper.any (knightAttacks sq) (pos.pieces .knight color) then 1 else 0
    k := if Helper.any (kingAttacks sq) (pos.pieces .king color) then 1 else 0
    b := if Helper.any (bishopAttacks sq pos.occBB) (pos.pieces .bishop color) then 1 else 0
    r := if Helper.any (rookAttacks sq pos.occBB) (pos.pieces .rook color) then 1 else 0
    q := if Helper.any (queenAttacks sq pos.occBB) (pos.pieces .queen color) then 1 else 0 }

/-- Sums up the total number of attackers. -/
def total_attackers (m : AtkCnt) : Int := m.p + m.n + m.k + m.b + m.r + m.q

/-- Black pawn piece-square table of the source. -/
def black_pawn_table : List Int :=
  [0,  0,  0,  0,  0,  0,  0,  0,
   50, 50, 50, 50, 50, 50, 50, 50,
   10, 10, 20, 30, 30, 20, 10, 10,
   5,  5, 10, 25, 25, 10,  5,  5,
   0,  0,  0, 20, 20,  0,  0,  0,
   5, -5,-10,-10,-10,-10, -5,  5,
   5, 10, 10,-20,-20, 10, 10,  5,
   0,  0,  0,  0,  0,  0,  0,  0]

/-- Black knight piece-square table of the source. -/
def black_knight_table : List Int :=
  [-50, -40, -30, -30, -30, -30, -40, -50,
   -40, -20,   0,   0,   0,   0, -20, -40,
   -30,   0,  10,  15,  15,  10,   0, -30,
   -30,   5,  15,  20,  20,  15,   5, -30,
   -30,   0,  15,  20,  20,  15,   0, -30,
   -30,   5,  10,  15,  15,  10,   5, -30,
   -40, -20,   0,   5,   5,   0, -20, -40,
   -50, -40, -30, -30, -30, -30, -40, -50]

/-- Black bishop piece-square table of the source. -/
def black_bishop_table : List Int :=
  [-20, -10, -10, -10, -10, -10, -10, -20,
   -10,   0,   0,   0,   0,   0,   0, -10,
   -10,   0,   5,  10,  10,   5,   0, -10,
   -10,   5,   5,  10,  10,   5,   5, -10,
   -10,   0,  10,  10,  10,  10,   0, -10,
   -10,  10,  10,  10,  10,  10,  10, -10,
   -10,  10,   0,   0,   0,   0,  10, -10,
   -20, -10, -10, -10, -10, -10, -10, -20]

/-- Black rook piece-square table of the source. -/
def black_rook_table : List Int :=
  [0,   0,   0,   0,   0,   0,   0,   0,
   5,  10,  10,  10,  10,  10,  10,   5,
   -5,   0,   0,   0,   0,   0,   0,  -5,
   -5,   0,   0,   0,   0,   0,   0,  -5,
   -5,   0,   0,   0,   0,   0,   0,  -5,
   -5,   0,   0,   0,   0,   0,   0,  -5,
   -5,   0,   0,   0,   0,   0,   0,  -5,
   0,   0,   0,   5,   5,   0,   0,   0]

/-- Early-game black queen piece-square table of the source. -/
def early_black_queen_table : List Int :=
  [-30, -20, -20, -20, -20, -20, -20, -30,
   -20, -20, -10, -10, -10, -10, -20, -20,
   -20, -10,  -5,  -5,  -5,  -5, -10, -20,
   -10, -10,  -5,  -5,  -5,  -5, -10, -10,
   -10, -10,  -5,  -5,  -5,  -5, -10, -10,
   -20, -10,  -5,  -5,  -5,  -5, -10, -20,
   -20, -20, 100, 100, 100, 100, -20, -20,
   -30, 50, 120, 150, 150, 120, 50, -30]

/-- Late-game black queen piece-square table of the source. -/
def late_black_queen_table : List Int :=
  [-20, -10, -10,  -5,  -5, -10, -10, -20,
   -10,   0,   0,   0,   0,   0,   0, -10,
   -10,   0,   5,   5,   5,   5,   0, -10,
   -5,   0,   5,   5,   5,   5,   0,  -5,
   0,   0,   5,   5,   5,   5,   0,  -5,
   -10,   5,   5,   5,   5,   5,   0, -10,
   -10,   0,   5,   0,   0,   0,   0, -10,
   -20, -10, -10,  -5,  -5, -10, -10, -20]

/-- Black king piece-square table of the source (declared there; the king
tables are never consulted by any scoring function of the source). -/
def black_king_table : List Int :=
  [-30, -40, -40, -50, -50, -40, -40, -30,
   -30, -40, -40, -50, -50, -40, -40, -30,
   -30, -40, -40, -50, -50, -40, -40, -30,
   -30, -40, -40, -50, -50, -40, -40, -30,
   -20, -30, -30, -40, -40, -30, -30, -20,
   -10, -20, -20, -20, -20, -20, -20, -10,
   20,  20,   0,   0,   0,   0,  20,  20,
   20,  30,  10,   0,   0,  10,  30,  20]

/-- Vertical mirror of a 64-entry table: rank r maps to rank 7 - r, file
unchanged. -/
def mirror_table (table : List Int) : List Int :=
  (List.range 64).map (fun i => table.getD ((7 - i / 8) * 8 + i % 8) 0)

/-- White tables, derived by mirroring as in the source constructor. -/
def white_pawn_table : List Int := mirror_table black_pawn_table

/-- Mirrored knight table. -/
def white_knight_table : List Int := mirror_table black_knight_table

/-- Mirrored bishop table. -/
def white_bishop_table : List Int := mirror_table black_bishop_table

/-- Mirrored rook table. -/
def white_rook_table : List Int := mirror_table black_rook_table

/-- Mirrored early queen table. -/
def early_white_queen_table : List Int := mirror_table early_black_queen_table

/-- Mirrored late queen table. -/
def late_white_queen_table : List Int := mirror_table late_black_queen_table

/-- Evaluation weight constants of the source. -/
def doubled_pawn_penalty : Int := 20

/-- Isolated pawn weight. -/
def isolated_pawn_penalty : Int := 20

/-- Passed pawn weight. -/
def passed_pawn_bonus : Int := 50

/-- Pawn center control weight. -/
def pawn_center_control : Int := 100

/-- Valuable pawn capture weight. -/
def valuable_pawn_captures_bonus : Int := 5

/-- Backwards pawn weight. -/
def backwards_pawn_penalty : Int := 20

/-- Bishop mobility weight. -/
def bishop_mobility_bonus : Int := 5

/-- Bishop center weight. -/
def bishop_center_bonus : Int := 40

/-- Rook open file weight. -/
def rook_open_file_bonus : Int := 35

/-- Stacked rooks weight. -/
def stacked_rooks_bonus : Int := 25

/-- Rook mobility weight. -/
def rook_mobility_bonus : Int := 5

/-- Knight mobility weight. -/
def knight_mobility_bonus : Int := 25

/-- King restriction weight. -/
def king_restriction_bonus : Int := 8

/-- Check pressure weight. -/
def checks_constant : Int := 25

/-- The source adds the double literal 0.5 to the int accumulator
bishop_pair_bonus; the sum converts to double and truncates toward zero on
assignment.  On an integer x this yields x when 0 is at most x and x + 1
otherwise (exact double arithmetic, values far below 2 to the 52). -/
def truncAddHalf (x : Int) : Int := if 0 ≤ x then x else x + 1

/-- Likewise for subtracting 0.5: x when x is at most 0, else x - 1. -/
def truncSubHalf (x : Int) : Int := if x ≤ 0 then x else x - 1

/-- Material values of the source (no king value). -/
def material_value (t : PieceType) : Int :=
  match t with
  | .pawn => 200
  | .knight => 600
  | .bishop => 700
  | .rook => 1000
  | .queen => 1800
  | .king => 0

/-- White-positive material balance over pawns, knights, bishops, rooks and
queens, as in the source. -/
def naive_material_balance (pos : Position) : Int :=
  let one := fun (t : PieceType) (c : Color) =>
    (bcount (pos.pieces t c) : Int) * material_value t * (if c = .white then 1 else -1)
  one .pawn .white + one .knight .white + one .bishop .white + one .rook .white +
    one .queen .white + one .pawn .black + one .knight .black + one .bishop .black +
    one .rook .black + one .queen .black

/-- Accumulators of pawn_structure: the by-reference counters of the source,
plus the contributions to the member accumulators pawn_position_score
(posDelta) and pins_and_checks_score (pinsDelta). -/
structure PawnAcc where
  doubled : Int := 0
  isolated : Int := 0
  passed : Int := 0
  center : Int := 0
  valuable : Int := 0
  backwards : Int := 0
  chain : Int := 0
  posDelta : Int := 0
  pinsDelta : Int := 0
deriving DecidableEq, Repr

/-- One file iteration of pawn_structure: index runs over 0..7, acc carries
the counters and the pawn squares collected so far. -/
def pawnFileStep (_pos : Position) (allied enemy enemyKing enemyPieces : Nat) (color : Color)
    (acc : PawnAcc × List Nat) (index : Nat) : PawnAcc × List Nat :=
  let a := acc.1
  let file_bb := fileBB index
  let rank_bb := rankBB index
  let adj_files_left := BitOp.shift_left file_bb
  let adj_files_right := BitOp.shift_right file_bb
  let pawn_captures_bb :=
    BitOp.shift_left (BitOp.shift_forward allied color &&& file_bb) |||
    BitOp.shift_right (BitOp.shift_forward allied color &&& file_bb)
  let count := bcount (allied &&& file_bb)
  let a :=
    if count > 0 then
      let a := if count > 1 then { a with doubled := a.doubled + ((count : Int) - 1) } else a
      let a :=
        if Helper.is_empty allied adj_files_left && Helper.is_empty allied adj_files_right then
          { a with isolated := a.isolated + (count : Int) } else a
      let a :=
        if Helper.is_empty enemy (adj_files_left ||| file_bb ||| adj_files_right) then
          { a with passed := a.passed + (count : Int) } else a
      let a := { a with valuable :=
        a.valuable + (bcount (pawn_captures_bb &&& (compl64 enemy &&& enemyPieces)) : Int) }
      let a :=
        if Helper.any pawn_captures_bb enemyKing then
          { a with pinsDelta := a.pinsDelta +
              (if color = .white then checks_constant else -checks_constant) } else a
      let a :=
        if Helper.any pawn_captures_bb (BitOp.get_surrounding_bits enemyKing) then
          { a with pinsDelta := a.pinsDelta +
              (if color = .white then king_restriction_bonus else -king_restriction_bonus) } else a
      let pos_captures := bcount (pawn_captures_bb &&& allied)
      if pos_captures = 2 then
        { a with backwards := a.backwards + 1, chain := a.chain + (pos_captures : Int) }
      else if pos_captures = 1 then
        let a := { a with chain := a.chain + 1 }
        if Helper.any pawn_captures_bb adj_files_left then
          if Helper.is_empty allied adj_files_right then
            { a with backwards := a.backwards + 1 } else a
        else
          if Helper.is_empty allied adj_files_left then
            { a with backwards := a.backwards + 1 } else a
      else a
    else a
  let a :=
    if index = 3 then
      { a with center := a.center + (bcount ((file_bb ||| adj_files_right) &&&
          (rank_bb ||| BitOp.shift_up rank_bb) &&& allied) : Int) }
    else a
  let squares := bitsAsc (allied &&& file_bb)
  let a := squares.foldl (fun acc2 square_index =>
    { acc2 with posDelta := acc2.posDelta +
        (if color = .white then white_pawn_table.getD square_index 0
         else -(black_pawn_table.getD square_index 0)) }) a
  (a, acc.2 ++ squares)

/-- Exchange-safety adjustment over the collected pawn squares: attacked and
undefended pawns lose 40 with a color sign, otherwise a losing exchange
balance costs 10 per surplus attacker with no color sign, as in the source. -/
def pawnExchangeStep (pos : Position) (color : Color) (a : PawnAcc) (sq : Nat) : PawnAcc :=
  let pawn_is_attacked := isAttackedCount pos sq color.other
  let pawn_support := isAttackedCount pos sq color
  let allied_attackers_total := total_attackers pawn_support
  let enemy_attackers_total := total_attackers pawn_is_attacked
  if enemy_attackers_total ≠ 0 && allied_attackers_total = 0 then
    { a with posDelta := a.posDelta - (if color = .white then 40 else -40) }
  else if enemy_attackers_total ≥ allied_attackers_total then
    { a with posDelta := a.posDelta - (enemy_attackers_total - allied_attackers_total) * 10 }
  else a

/-- Pawn structure evaluation for one color, following the source: returns
all counters together with the position-table and pin-check contributions.
Returns zero accumulators when the color has no pawns. -/
def pawn_structure (pos : Position) (allied_pawns enemy_pawns enemy_king enemy_pieces : Nat)
    (color : Color) : PawnAcc :=
  if bcount allied_pawns = 0 then {} else
  let folded := (List.range 8).foldl
    (pawnFileStep pos allied_pawns enemy_pawns enemy_king enemy_pieces color) ({}, [])
  folded.2.foldl (pawnExchangeStep pos color) folded.1

/-- The weighted sum of the pawn components, exactly the return expression of
sum_pawn_components in the source (the chain difference enters with weight
one; the declared pawn_chain_bonus constant is unused there). -/
def sum_pawn_components (w b : PawnAcc) : Int :=
  -(w.doubled - b.doubled) * doubled_pawn_penalty
  - (w.isolated - b.isolated) * isolated_pawn_penalty
  + (w.passed - b.passed) * passed_pawn_bonus
  + (w.center - b.center) * pawn_center_control
  + (w.valuable - b.valuable) * valuable_pawn_captures_bonus
  - (w.backwards - b.backwards) * backwards_pawn_penalty
  + (w.chain - b.chain)

/-- pawn_score of the source: both colors of pawn_structure and the weighted
sum; the table and pin contributions are reported separately. -/
def pawn_score (pos : Position) : Int × PawnAcc × PawnAcc :=
  let w := pawn_structure pos (pos.pieces .pawn .white) (pos.pieces .pawn .black)
    (pos.pieces .king .black) (pos.usBB .black) .white
  let b := pawn_structure pos (pos.pieces .pawn .black) (pos.pieces .pawn .white)
    (pos.pieces .king .white) (pos.usBB .white) .black
  (sum_pawn_components w b, w, b)

/-- Accumulators of bishop_eval: mobility and center counters, the threaded
bishop_pair_bonus accumulator, and the contributions to bishop_position_score
and pins_and_checks_score. -/
structure BishopAcc where
  mobility : Int := 0
  center : Int := 0
  pair : Int := 0
  posDelta : Int := 0
  pinsDelta : Int := 0
deriving DecidableEq, Repr

/-- bishop_eval of the source for one color.  The location loop of the
source adds the piece-square entry for every square index 0..63, whether or
not a bishop stands there, because the accumulation sits outside the
occupancy test; squares holding a bishop are additionally collected for the
mobility and exchange passes. -/
def bishop_eval (pos : Position) (bishops enemy_king : Nat) (color : Color)
    (pairIn : Int) : BishopAcc :=
  let bishops_count := bcount bishops
  if bishops_count = 0 then { pair := pairIn } else
  let pair1 :=
    if bishops_count > 1 then
      (if color = .white then truncAddHalf pairIn else truncSubHalf pairIn)
    else pairIn
  let bishop_location := bitsAsc bishops
  let posTable := (List.range 64).foldl (fun s sq_index =>
    s + (if color = .white then white_bishop_table.getD sq_index 0
         else -(black_bishop_table.getD sq_index 0))) 0
  let all_pieces := pos.occBB
  let afterMob := bishop_location.foldl (fun (a : BishopAcc) sq =>
    let bishop_attacks := bishopAttacks sq all_pieces
    let a := { a with mobility := a.mobility + (bcount bishop_attacks : Int) }
    let a :=
      if Helper.any bishop_attacks enemy_king then
        { a with pinsDelta := a.pinsDelta +
            (if color = .white then checks_constant else -checks_constant) } else a
    if Helper.any bishop_attacks (BitOp.get_surrounding_bits enemy_king) then
      { a with pinsDelta := a.pinsDelta +
          (if color = .white then king_restriction_bonus else -king_restriction_bonus) } else a)
    { pair := pair1, posDelta := posTable }
  let file_bb := fileBB 3
  let rank_bb := rankBB 3
  let afterCenter := { afterMob with center := afterMob.center +
    (bcount ((file_bb ||| BitOp.shift_right file_bb) &&&
      (rank_bb ||| BitOp.shift_up rank_bb) &&& bishops) : Int) }
  bishop_location.foldl (fun (a : BishopAcc) sq =>
    let bishop_is_attacked := isAttackedCount pos sq color.other
    let bishop_support := isAttackedCount pos sq color
    let allied_attackers_total := total_attackers bishop_support
    let enemy_attackers_total := total_attackers bishop_is_attacked
    if bishop_is_attacked.p ≠ 0 then
      { a with posDelta := a.posDelta - (if color = .white then 75 else -75) }
    else if enemy_attackers_total ≠ 0 && allied_attackers_total = 0 then
      { a with posDelta := a.posDelta - (if color = .white then 75 else -75) }
    else if enemy_attackers_total ≥ allied_attackers_total then
      { a with posDelta := a.posDelta - (enemy_attackers_total - allied_attackers_total) * 15 }
    else a) afterCenter

/-- bishop_score of the source: both colors with the pair accumulator
threaded white first, then the weighted combination. -/
def bishop_score (pos : Position) : Int × BishopAcc × BishopAcc :=
  let w := bishop_eval pos (pos.pieces .bishop .white) (pos.pieces .king .black) .white 0
  let b := bishop_eval pos (pos.pieces .bishop .black) (pos.pieces .king .white) .black w.pair
  ((w.mobility - b.mobility) * bishop_mobility_bonus
    + (w.center - b.center) * bishop_center_bonus + b.pair, w, b)

/-- Accumulators of knight_eval. -/
structure KnightAcc where
  mobility : Int := 0
  posDelta : Int := 0
  pinsDelta : Int := 0
deriving DecidableEq, Repr

/-- knight_eval of the source for one color. -/
def knight_eval (pos : Position) (knights enemy_king allied_pieces : Nat)
    (color : Color) : KnightAcc :=
  let knights_count := bcount knights
  if knights_count = 0 then {} else
  let knight_positions := bitsAsc knights
  let posTable := knight_positions.foldl (fun s square_index =>
    s + (if color = .white then white_knight_table.getD square_index 0
         else -(black_knight_table.getD square_index 0))) 0
  let afterMob := knight_positions.foldl (fun (a : KnightAcc) sq =>
    let knight_attacks := knightAttacks sq
    let a :=
      if Helper.any knight_attacks enemy_king then
        { a with pinsDelta := a.pinsDelta +
            (if color = .white then checks_constant else -checks_constant) } else a
    let a :=
      if Helper.any knight_attacks (BitOp.get_surrounding_bits enemy_king) then
        { a with pinsDelta := a.pinsDelta +
            (if color = .white then king_restriction_bonus else -king_restriction_bonus) } else a
    { a with mobility := a.mobility + (bcount (knight_attacks &&& compl64 allied_pieces) : Int) })
    { posDelta := posTable }
  knight_positions.foldl (fun (a : KnightAcc) sq =>
    let knight_is_attacked := isAttackedCount pos sq color.other
    let knight_support := isAttackedCount pos sq color
    let allied_attackers_total := total_attackers knight_support
    let enemy_attackers_total := total_attackers knight_is_attacked
    if enemy_attackers_total ≠ 0 && allied_attackers_total = 0 then
      { a with posDelta := a.posDelta - (if color = .white then 60 else -60) }
    else if knight_is_attacked.p ≠ 0 then
      { a with posDelta := a.posDelta - (if color = .white then 50 else -50) }
    else if enemy_attackers_total ≥ allied_attackers_total then
      { a with posDelta := a.posDelta - (enemy_attackers_total - allied_attackers_total) * 15 }
    else a) afterMob

/-- knight_score of the source. -/
def knight_score (pos : Position) : Int × KnightAcc × KnightAcc :=
  let w := knight_eval pos (pos.pieces .knight .white) (pos.pieces .king .black)
    (pos.usBB .white) .white
  let b := knight_eval pos (pos.pieces .knight .black) (pos.pieces .king .white)
    (pos.usBB .black) .black
  ((w.mobility - b.mobility) * knight_mobility_bonus, w, b)

/-- Accumulators of rook_eval. -/
structure RookAcc where
  openFile : Int := 0
  stacked : Int := 0
  mobility : Int := 0
  posDelta : Int := 0
  pinsDelta : Int := 0
deriving DecidableEq, Repr

/-- The rook position-table accumulation for one square. -/
def rookTableStep (color : Color) (a2 : RookAcc) (square_index : Nat) : RookAcc :=
  { a2 with posDelta := a2.posDelta +
      (if color = .white then white_rook_table.getD square_index 0
       else -(black_rook_table.getD square_index 0)) }

/-- One index iteration of the rook file loop: stacked detection on the file
and the rank, the position table over the rooks of the file, and the open
file and open rank tests, both taken against the member black_pawns
regardless of the evaluated color, exactly as in the source. -/
def rookFileStep (black_pawns rooks : Nat) (color : Color)
    (acc : RookAcc × List Nat) (index : Nat) : RookAcc × List Nat :=
  let a := acc.1
  let file_bb := fileBB index
  let rank_bb := rankBB index
  let rooks_in_file := rooks &&& file_bb
  let a := if bcount rooks_in_file ≥ 2 then { a with stacked := a.stacked + 1 } else a
  let rooks_in_rank := rooks &&& rank_bb
  let a := if bcount rooks_in_rank ≥ 2 then { a with stacked := a.stacked + 1 } else a
  let squares := bitsAsc rooks_in_file
  let a := squares.foldl (rookTableStep color) a
  let file_is_open := file_bb &&& black_pawns == 0
  let a := if file_is_open then { a with openFile := a.openFile + 1 } else a
  let rank_is_open := rank_bb &&& black_pawns == 0
  let a := if rank_is_open then { a with openFile := a.openFile + 1 } else a
  (a, acc.2 ++ squares)

/-- The rook mobility accumulation for one square. -/
def rookMobStep (all_pieces : Nat) (a : RookAcc) (sq : Nat) : RookAcc :=
  { a with mobility := a.mobility + (bcount (rookAttacks sq all_pieces) : Int) }

/-- The rook check and king-ring accumulation for one square. -/
def rookCheckStep (all_pieces enemy_king : Nat) (color : Color) (a : RookAcc)
    (sq : Nat) : RookAcc :=
  let rook_attacks := rookAttacks sq all_pieces
  let a :=
    if Helper.any rook_attacks enemy_king then
      { a with pinsDelta := a.pinsDelta +
          (if color = .white then checks_constant else -checks_constant) } else a
  if Helper.any rook_attacks (BitOp.get_surrounding_bits enemy_king) then
    { a with pinsDelta := a.pinsDelta +
        (if color = .white then king_restriction_bonus else -king_restriction_bonus) } else a

/-- The rook exchange-safety adjustment for one square, with the inverted
difference of the final clause as in the source. -/
def rookExchStep (pos : Position) (color : Color) (a : RookAcc) (sq : Nat) : RookAcc :=
  let rook_is_attacked := isAttackedCount pos sq color.other
  let rook_support := isAttackedCount pos sq color
  let allied_attackers_total := total_attackers rook_support
  let enemy_attackers_total := total_attackers rook_is_attacked
  if enemy_attackers_total ≠ 0 && allied_attackers_total = 0 then
    { a with posDelta := a.posDelta - (if color = .white then 125 else -125) }
  else if rook_is_attacked.p ≠ 0 then
    { a with posDelta := a.posDelta - (if color = .white then 125 else -125) }
  else if rook_is_attacked.n ≠ 0 || rook_is_attacked.b ≠ 0 then
    (if allied_attackers_total < enemy_attackers_total then
      { a with posDelta := a.posDelta - (if color = .white then 50 else -50) }
    else a)
  else if enemy_attackers_total ≥ allied_attackers_total then
    { a with posDelta := a.posDelta - (allied_attackers_total - enemy_attackers_total) * 15 }
  else a

/-- rook_eval of the source for one color. -/
def rook_eval (pos : Position) (rooks black_pawns enemy_king : Nat) (color : Color) : RookAcc :=
  let rooks_count := bcount rooks
  if rooks_count = 0 then {} else
  let folded := (List.range 8).foldl (rookFileStep black_pawns rooks color) ({}, [])
  let rook_location := folded.2
  let all_pieces := pos.occBB
  let afterMob := rook_location.foldl (rookMobStep all_pieces) folded.1
  let afterChecks := rook_location.foldl (rookCheckStep all_pieces enemy_king color) afterMob
  rook_location.foldl (rookExchStep pos color) afterChecks

/-- rook_score of the source: both colors (each against the member
black_pawns) and the weighted combination. -/
def rook_score (pos : Position) : Int × RookAcc × RookAcc :=
  let w := rook_eval pos (pos.pieces .rook .white) (pos.pieces .pawn .black)
    (pos.pieces .king .black) .white
  let b := rook_eval pos (pos.pieces .rook .black) (pos.pieces .pawn .black)
    (pos.pieces .king .white) .black
  ((w.openFile - b.openFile) * rook_open_file_bonus
    + (w.stacked - b.stacked) * stacked_rooks_bonus
    + (w.mobility - b.mobility) * rook_mobility_bonus, w, b)

/-- Accumulators of queen_eval. -/
structure QueenAcc where
  posDelta : Int := 0
  pinsDelta : Int := 0
deriving DecidableEq, Repr

/-- queen_eval of the source for one color: early or late table by the enemy
piece count, check pressure only when the enemy has fewer than 11 pieces,
ring restriction always. -/
def queen_eval (pos : Position) (queens enemy_king enemy_pieces : Nat)
    (color : Color) : QueenAcc :=
  let queens_count := bcount queens
  let enemy_pieces_count := bcount enemy_pieces
  if queens_count = 0 then {} else
  let queen_location := bitsAsc queens
  let posTable := queen_location.foldl (fun s square_index =>
    s + (if enemy_pieces_count > 10 then
          (if color = .white then early_white_queen_table.getD square_index 0
           else -(early_black_queen_table.getD square_index 0))
         else
          (if color = .white then late_white_queen_table.getD square_index 0
           else -(late_black_queen_table.getD square_index 0)))) 0
  let all_pieces := pos.occBB
  queen_location.foldl (fun (a : QueenAcc) sq =>
    let queen_attacks := queenAttacks sq all_pieces
    let a :=
      if enemy_pieces_count < 11 then
        (if Helper.any queen_attacks enemy_king then
          { a with pinsDelta := a.pinsDelta +
              (if color = .white then checks_constant else -checks_constant) } else a)
      else a
    if Helper.any queen_attacks (BitOp.get_surrounding_bits enemy_king) then
      { a with pinsDelta := a.pinsDelta +
          (if color = .white then king_restriction_bonus else -king_restriction_bonus) } else a)
    { posDelta := posTable }

/-- queen_score of the source returns 0; only the accumulators matter. -/
def queen_score (pos : Position) : Int × QueenAcc × QueenAcc :=
  let w := queen_eval pos (pos.pieces .queen .white) (pos.pieces .king .black)
    (pos.usBB .black) .white
  let b := queen_eval pos (pos.pieces .queen .black) (pos.pieces .king .white)
    (pos.usBB .white) .black
  (0, w, b)

/-- king_eval of the source: with two or more enemy attackers on the king
square the king_position_score accumulator moves by 300 against that color. -/
def king_eval (pos : Position) (color : Color) : Int :=
  let king_square := pos.kingSq color
  let king_attackers := total_attackers (isAttackedCount pos king_square color.other)
  if king_attackers ≥ 2 then -(if color = .white then (300 : Int) else -300) else 0

/-- static_eval of the source.  For a decided game the sentinel depends only
on the stored side and the result code; otherwise the full heuristic sum:
material, weighted piece scores, the position-table accumulators and the
pin-check accumulator. -/
def static_eval (b : Board) (side : Color) : Int :=
  match (isGameOver b).2 with
  | .none =>
    let pos := b.pos
    let pawnR := pawn_score pos
    let bishopR := bishop_score pos
    let knightR := knight_score pos
    let rookR := rook_score pos
    let queenR := queen_score pos
    let kingW := king_eval pos .white
    let kingB := king_eval pos .black
    let temp := naive_material_balance pos + pawnR.1 + bishopR.1 + knightR.1 +
      rookR.1 + queenR.1 + 0
    let sum_pos := (pawnR.2.1.posDelta + pawnR.2.2.posDelta) +
      (bishopR.2.1.posDelta + bishopR.2.2.posDelta) +
      (knightR.2.1.posDelta + knightR.2.2.posDelta) +
      (rookR.2.1.posDelta + rookR.2.2.posDelta) +
      (queenR.2.1.posDelta + queenR.2.2.posDelta) + (kingW + kingB)
    let pins_and_checks := (pawnR.2.1.pinsDelta + pawnR.2.2.pinsDelta) +
      (bishopR.2.1.pinsDelta + bishopR.2.2.pinsDelta) +
      (knightR.2.1.pinsDelta + knightR.2.2.pinsDelta) +
      (rookR.2.1.pinsDelta + rookR.2.2.pinsDelta) +
      (queenR.2.1.pinsDelta + queenR.2.2.pinsDelta)
    temp + sum_pos + pins_and_checks
  | .win => if side = .black then -99999 else 99999
  | .lose => if side = .black then 99999 else -99999
  | .draw => 0

/-- The value of std::numeric_limits of int, member infinity(): int has no
infinity, so the C++ standard defines this call to return int(), which is 0.
Every use of plus or minus infinity in the search source evaluates to 0. -/
def int_infinity : Int := 0

/-- A transposition table entry of the source. -/
structure TranspositionEntry where
  value : Int
  depth : Nat
  is_exact : Bool
deriving DecidableEq, Repr

/-- The transposition table, a mapping from position hash to entry. -/
abbrev TTable := List (Nat × TranspositionEntry)

/-- Map update as performed by assigning through operator[]: replace the
existing entry for the hash or add a new one. -/
def ttStore (tt : TTable) (hsh : Nat) (e : TranspositionEntry) : TTable :=
  if (List.lookup hsh tt).isSome then
    tt.map (fun p => if p.1 = hsh then (hsh, e) else p)
  else (hsh, e) :: tt

/-- Whether a move is a capture, following the rules library: a piece stands
on the target square and the move is not castling, or the move is en
passant. -/
def isCaptureP (pos : Position) (m : Move) : Bool :=
  ((pos.pieceAt m.toSq).isSome && m.ty ≠ .castling) || m.ty = .enpassant

/-- generate_noisy_moves of the source: captures, promotions, and moves
after which the new side to move stands in check.  The check test makes the
move on a copy of the board, so the borrowed board is untouched. -/
def generate_noisy_moves (moves : List Move) (data : Board) : List Move :=
  moves.filter (fun move =>
    isCaptureP data.pos move || move.ty = .promotion || inCheckB (makeMove data move))

/-- Stable insertion of one scored move into a list sorted descending by
score, strict comparison as in compareMoves of the source. -/
def insertMoveEval (x : Move × Int) : List (Move × Int) → List (Move × Int)
  | [] => [x]
  | y :: rest => if x.2 > y.2 then x :: y :: rest else y :: insertMoveEval x rest

/-- Descending sort by score.  The source uses std sort with a strict
greater comparator, which leaves the relative order of equal scores
unspecified; this model fixes the stable order. -/
def sortMoveEvals (l : List (Move × Int)) : List (Move × Int) :=
  l.foldr insertMoveEval []

/-- The shallow move-ordering pass of Minimax: for each move, make it, take
the static evaluation of the new position for its side to move, and unmake,
threading the board through. -/
def orderLoop : List Move → Board → List (Move × Int) → List (Move × Int) × Board
  | [], b, acc => (acc.reverse, b)
  | move :: rest, b, acc =>
    let b1 := makeMove b move
    let e := static_eval b1 b1.pos.stm
    let b2 := unmakeMove b1 move
    orderLoop rest b2 ((move, e) :: acc)

/-- The maximizing loop of QuiescenceSearch: make, recurse, unmake, update
max_eval and alpha, and break on alpha at least beta after the updates. -/
def qLoopMax (rec : Board → Int → Int → TTable → Int × Board × TTable) :
    List Move → Board → Int → Int → Int → TTable → Int × Board × TTable
  | [], b, _, _, max_eval, tt => (max_eval, b, tt)
  | move :: rest, b, alpha, beta, max_eval, tt =>
    let b1 := makeMove b move
    let r := rec b1 alpha beta tt
    let b2 := unmakeMove r.2.1 move
    let max_eval1 := max max_eval r.1
    let alpha1 := max alpha r.1
    if alpha1 ≥ beta then (max_eval1, b2, r.2.2)
    else qLoopMax rec rest b2 alpha1 beta max_eval1 r.2.2

/-- The minimizing loop of QuiescenceSearch: beta is lowered to the child
value, as in the source. -/
def qLoopMin (rec : Board → Int → Int → TTable → Int × Board × TTable) :
    List Move → Board → Int → Int → Int → TTable → Int × Board × TTable
  | [], b, _, _, min_eval, tt => (min_eval, b, tt)
  | move :: rest, b, alpha, beta, min_eval, tt =>
    let b1 := makeMove b move
    let r := rec b1 alpha beta tt
    let b2 := unmakeMove r.2.1 move
    let min_eval1 := min min_eval r.1
    let beta1 := min beta r.1
    if alpha ≥ beta1 then (min_eval1, b2, r.2.2)
    else qLoopMin rec rest b2 alpha beta1 min_eval1 r.2.2

/-- QuiescenceSearch of the source.  The fuel argument bounds the recursion
depth of the model (the C++ recursion has no structural bound); at fuel 0
the model returns value 0 with the board and table unchanged. -/
def quiescence : Nat → Board → Int → Int → Bool → TTable → Int × Board × TTable
  | 0, b, _, _, _, tt => (0, b, tt)
  | fuel + 1, data, alphaIn, betaIn, maximizing_player, tt =>
    let stand_pat := static_eval data data.pos.stm
    if (isGameOver data).1 ≠ GameResultReason.none then (stand_pat, data, tt)
    else
      let hit : Option Int :=
        match List.lookup (posHash data.pos) tt with
        | some entry =>
          if entry.is_exact then some entry.value
          else if maximizing_player && entry.value ≤ alphaIn then some entry.value
          else if !maximizing_player && entry.value ≥ betaIn then some entry.value
          else none
        | none => none
      match hit with
      | some v => (v, data, tt)
      | none =>
        if maximizing_player && stand_pat ≥ betaIn then (stand_pat, data, tt)
        else if !maximizing_player && stand_pat ≤ alphaIn then (stand_pat, data, tt)
        else
          let alpha := if maximizing_player then max alphaIn stand_pat else alphaIn
          let beta := if maximizing_player then betaIn else min betaIn stand_pat
          let moves := legalMoves data
          let noisy_moves := generate_noisy_moves moves data
          if noisy_moves = [] then (stand_pat, data, tt)
          else if maximizing_player then
            qLoopMax (fun b2 a2 b3 t2 => quiescence fuel b2 a2 b3 false t2)
              noisy_moves data alpha beta alpha tt
          else
            qLoopMin (fun b2 a2 b3 t2 => quiescence fuel b2 a2 b3 true t2)
              noisy_moves data alpha beta beta tt

/-- The maximizing loop of Minimax over the ordered scored moves. -/
def mmLoopMax (rec : Board → Int → Int → TTable → Int × Board × TTable) :
    List (Move × Int) → Board → Int → Int → Int → TTable → Int × Board × TTable
  | [], b, _, _, max_eval, tt => (max_eval, b, tt)
  | me :: rest, b, alpha, beta, max_eval, tt =>
    let b1 := makeMove b me.1
    let r := rec b1 alpha beta tt
    let b2 := unmakeMove r.2.1 me.1
    let max_eval1 := max max_eval r.1
    let alpha1 := max alpha r.1
    if beta ≤ alpha1 then (max_eval1, b2, r.2.2)
    else mmLoopMax rec rest b2 alpha1 beta max_eval1 r.2.2

/-- The minimizing loop of Minimax: here the source lowers beta to the
updated min_eval rather than to the child value. -/
def mmLoopMin (rec : Board → Int → Int → TTable → Int × Board × TTable) :
    List (Move × Int) → Board → Int → Int → Int → TTable → Int × Board × TTable
  | [], b, _, _, min_eval, tt => (min_eval, b, tt)
  | me :: rest, b, alpha, beta, min_eval, tt =>
    let b1 := makeMove b me.1
    let r := rec b1 alpha beta tt
    let b2 := unmakeMove r.2.1 me.1
    let min_eval1 := min min_eval r.1
    let beta1 := min beta min_eval1
    if beta1 ≤ alpha then (min_eval1, b2, r.2.2)
    else mmLoopMin rec rest b2 alpha beta1 min_eval1 r.2.2

/-- Minimax of the source.  At the horizon or at a decided game it delegates
to QuiescenceSearch; then the transposition probe, move generation (with the
empty branch returning minus or plus int_infinity, both 0), shallow ordering,
the alpha-beta loop, and finally the store of the result as exact under the
entry hash. -/
def minimax : Nat → Board → Nat → Int → Int → Bool → TTable → Int × Board × TTable
  | 0, b, _, _, _, _, tt => (0, b, tt)
  | fuel + 1, data, depth, alpha, beta, maximizing_player, tt =>
    if depth = 0 || (isGameOver data).1 ≠ GameResultReason.none then
      quiescence fuel data alpha beta maximizing_player tt
    else
      let hsh := posHash data.pos
      let hit : Option Int :=
        match List.lookup hsh tt with
        | some entry =>
          if entry.depth ≥ depth then
            if entry.is_exact then some entry.value
            else if maximizing_player && entry.value ≤ alpha then some entry.value
            else if !maximizing_player && entry.value ≥ beta then some entry.value
            else none
          else none
        | none => none
      match hit with
      | some v => (v, data, tt)
      | none =>
        let moves := legalMoves data
        if moves = [] then
          ((if maximizing_player then -int_infinity else int_infinity), data, tt)
        else
          let ordered := orderLoop moves data []
          let move_evals := sortMoveEvals ordered.1
          if maximizing_player then
            let r := mmLoopMax (fun b2 a2 b3 t2 => minimax fuel b2 (depth - 1) a2 b3 false t2)
              move_evals ordered.2 alpha beta (-int_infinity) tt
            (r.1, r.2.1, ttStore r.2.2 hsh ⟨r.1, depth, true⟩)
          else
            let r := mmLoopMin (fun b2 a2 b3 t2 => minimax fuel b2 (depth - 1) a2 b3 true t2)
              move_evals ordered.2 alpha beta int_infinity tt
            (r.1, r.2.1, ttStore r.2.2 hsh ⟨r.1, depth, true⟩)

/-- Result of the root move loop of find_best_move. -/
structure RootResult where
  bmfd : Move
  befd : Int
  board : Board
  tt : TTable
deriving Repr

/-- The root move loop of find_best_move for one depth: the color decides
only the maximizing flag of the child call; the incumbent is replaced
whenever the child value is at least the incumbent value, and alpha is
raised to the running best value; beta is never modified. -/
def fbRootLoop (fuel dpt : Nat) (color : Color) (beta : Int) :
    List Move → Board → TTable → Int → Move → Int → RootResult
  | [], b, tt, _, bmfd, befd => ⟨bmfd, befd, b, tt⟩
  | move :: rest, b, tt, alpha, bmfd, befd =>
    let b1 := makeMove b move
    let r := if color = .white then minimax fuel b1 (dpt - 1) alpha beta false tt
             else minimax fuel b1 (dpt - 1) alpha beta true tt
    let b2 := unmakeMove r.2.1 move
    let bmfd1 := if r.1 ≥ befd then move else bmfd
    let befd1 := if r.1 ≥ befd then r.1 else befd
    let alpha1 := max alpha befd1
    fbRootLoop fuel dpt color beta rest b2 r.2.2 alpha1 bmfd1 befd1

/-- The iterative-deepening depth loop of find_best_move: per depth, a fresh
alpha and beta (both minus and plus int_infinity, hence 0), the early return
when exactly one legal move exists, the root loop, the global-best update
comparing against best_eval, and the store of best_eval as an exact entry
under the hash of the root position. -/
def fbDepthLoop (fuel : Nat) (color : Color) :
    Nat → Nat → Board → TTable → Move → Int → Move × Board × TTable
  | 0, _, b, tt, best_move, _ => (best_move, b, tt)
  | rem + 1, dpt, b, tt, best_move, best_eval =>
    let alpha := -int_infinity
    let beta := int_infinity
    let moves := legalMoves b
    if moves.length = 1 then (moves.headD default, b, tt)
    else
      let best_move_for_depth := moves.headD default
      let best_eval_for_depth := -int_infinity
      let r := fbRootLoop fuel dpt color beta moves b tt alpha
        best_move_for_depth best_eval_for_depth
      let best_eval1 := if r.befd ≥ best_eval then r.befd else best_eval
      let best_move1 := if r.befd ≥ best_eval then r.bmfd else best_move
      let tt1 := ttStore r.tt (posHash r.board.pos) ⟨best_eval1, dpt, true⟩
      fbDepthLoop fuel color rem (dpt + 1) r.board tt1 best_move1 best_eval1

/-- find_best_move of the source.  The local best_move starts as the
default-constructed move.  The local best_eval is declared without an
initializer and the two declarations inside the color branches introduce
block-local shadows that die immediately, so the first comparison of each
call reads an indeterminate value; the model makes that value the explicit
junk parameter. -/
def find_best_move (junk : Int) (fuel : Nat) (data : Board) (max_depth : Nat)
    (color : Color) (tt : TTable) : Move × Board × TTable :=
  fbDepthLoop fuel color max_depth 1 data tt default junk

/-- Whether every entry of a transposition table carries the exact flag. -/
def ttAllExact (tt : TTable) : Bool := tt.all (fun p => p.2.is_exact)

/-- The standard starting position, STARTFEN of the source. -/
def startPos : Position :=
  { wPawn := 0xFF00, wKnight := 0x42, wBishop := 0x24, wRook := 0x81,
    wQueen := 0x8, wKing := 0x10,
    bPawn := 0x00FF000000000000, bKnight := 0x4200000000000000,
    bBishop := 0x2400000000000000, bRook := 0x8100000000000000,
    bQueen := 0x0800000000000000, bKing := 0x1000000000000000,
    stm := .white, castleWK := true, castleWQ := true, castleBK := true, castleBQ := true }

/-- Board at the starting position. -/
def startB : Board := { pos := startPos }

/-- The literal position of scenario S4, FEN 8/8/8/8/8/4k3/4q3/4K3 b - - 0 1:
white king e1, black queen e2, black king e3, black to move. -/
def s4B : Board :=
  { pos := { wKing := 0x10, bQueen := 0x1000, bKing := 0x100000, stm := .black } }

/-- The same placement with white to move: white is checkmated. -/
def mateWhiteB : Board :=
  { pos := { wKing := 0x10, bQueen := 0x1000, bKing := 0x100000, stm := .white } }

/-- Black checkmated: black king e8, white queen e7, white king e6, black to
move; a decided position that white has won. -/
def mateBlackB : Board :=
  { pos := { bKing := 0x1000000000000000, wQueen := 0x10000000000000,
             wKing := 0x100000000000, stm := .black } }

/-- Root board of the concrete search runs: white king h1 and rook a1, black
king h8 and pawn e5, black to move.  Black has four legal moves; the three
king moves reach positions of minimax value 1210 and the pawn push e5 to e4
reaches value 1205. -/
def searchB : Board :=
  { pos := { wKing := 0x80, wRook := 1, bKing := 0x8000000000000000,
             bPawn := 0x1000000000, stm := .black } }

/-- Position with a single white bishop on a1 (kings on e1 and h8): failing
input for the bishop piece-square accumulation. -/
def bishopPos : Position :=
  { wBishop := 1, wKing := 0x10, bKing := 0x8000000000000000, stm := .white }

set_option maxRecDepth 10000

set_option maxHeartbeats 2000000

/-- C9.  The source documents get_surrounding_bits as expand_bits with the
origin bit cleared: on the single-bit input a1 that would be the three
neighbor squares b1, a2, b2 (bitboard 0x302 = 770).  The returned expression
instead joins the 64-bit complement of the input with the shifts, yielding
every square except a1.  The claimed identity get_surrounding_bits b =
expand_bits b with b cleared therefore fails at b = 1. -/
theorem get_surrounding_bits_bug :
    BitOp.get_surrounding_bits 1 = 2 ^ 64 - 2 ∧
    BitOp.expand_bits 1 &&& compl64 1 = 770 ∧
    (2 ^ 64 - 2 : Nat) ≠ 770 := by decide

/-- C5.  Failing input for the bishop piece-square accumulation: a single
white bishop on a1.  The claimed per-occupied-square sum is the single entry
white_bishop_table at a1, which is -20; bishop_eval instead contributes the
sum of all 64 table entries, -130, because the accumulation sits outside the
occupancy test. -/
theorem bishop_eval_table_bug :
    (bishop_eval bishopPos 1 (bishopPos.pieces .king .black) .white 0).posDelta = -130 ∧
    white_bishop_table.getD 0 0 = -20 ∧ (-130 : Int) ≠ -20 := by decide

/-- A fold whose step never changes the open-file counter leaves it
unchanged. -/
theorem foldl_openFile_inv (f : RookAcc → Nat → RookAcc)
    (hf : ∀ a s, (f a s).openFile = a.openFile) (l : List Nat) (a : RookAcc) :
    (l.foldl f a).openFile = a.openFile := by
  induction l generalizing a with
  | nil => rfl
  | cons s rest ih => rw [List.foldl_cons, ih, hf]

/-- The table step keeps the open counter. -/
theorem rookTableStep_openFile (c : Color) (a : RookAcc) (s : Nat) :
    (rookTableStep c a s).openFile = a.openFile := rfl

/-- The mobility step keeps the open counter. -/
theorem rookMobStep_openFile (ap : Nat) (a : RookAcc) (s : Nat) :
    (rookMobStep ap a s).openFile = a.openFile := rfl

/-- The check step keeps the open counter. -/
theorem rookCheckStep_openFile (ap ek : Nat) (c : Color) (a : RookAcc) (s : Nat) :
    (rookCheckStep ap ek c a s).openFile = a.openFile := by
  unfold rookCheckStep
  dsimp only
  split_ifs <;> rfl

/-- The exchange step keeps the open counter. -/
theorem rookExchStep_openFile (pos : Position) (c : Color) (a : RookAcc) (s : Nat) :
    (rookExchStep pos c a s).openFile = a.openFile := by
  unfold rookExchStep
  dsimp only
  split_ifs <;> rfl

/-- One file-loop iteration raises the open counter by one for an open file
and one for an open rank, both tested against the black pawn mask. -/
theorem rookFileStep_openFile (bp rooks : Nat) (c : Color) (acc : RookAcc × List Nat)
    (i : Nat) :
    (rookFileStep bp rooks c acc i).1.openFile = acc.1.openFile +
      (if fileBB i &&& bp == 0 then 1 else 0) +
      (if rankBB i &&& bp == 0 then 1 else 0) := by
  unfold rookFileStep
  dsimp only
  split_ifs <;>
    simp [foldl_openFile_inv (rookTableStep c) (rookTableStep_openFile c)]

/-- The whole file loop counts open files plus open ranks over its index
list. -/
theorem rookFileFold_openFile (bp rooks : Nat) (c : Color) (l : List Nat)
    (acc : RookAcc × List Nat) :
    ((l.foldl (rookFileStep bp rooks c) acc).1.openFile : Int) = acc.1.openFile +
      (l.countP (fun i => fileBB i &&& bp == 0) : Int) +
      (l.countP (fun i => rankBB i &&& bp == 0) : Int) := by
  induction l generalizing acc with
  | nil => simp
  | cons i rest ih =>
    rw [List.foldl_cons, ih, rookFileStep_openFile]
    simp only [List.countP_cons]
    push_cast
    split_ifs <;> ring

/-- C10.  For any position and any color owning at least one rook, the open
counter accumulated by rook_eval equals the number of files with no black
pawn plus the number of ranks with no black pawn: every index 0..7 is tested
against the black pawn mask alone, independently of the rook placement, so
each open file or rank counts exactly once. -/
theorem rook_eval_open_file_count (pos : Position) (rooks bp ek : Nat) (c : Color)
    (h : 0 < bcount rooks) :
    (rook_eval pos rooks bp ek c).openFile =
      ((List.range 8).countP (fun i => fileBB i &&& bp == 0) : Int) +
      ((List.range 8).countP (fun i => rankBB i &&& bp == 0) : Int) := by
  have hne : ¬ bcount rooks = 0 := Nat.pos_iff_ne_zero.mp h
  unfold rook_eval
  rw [if_neg hne]
  dsimp only
  rw [foldl_openFile_inv (rookExchStep pos c) (rookExchStep_openFile pos c),
    foldl_openFile_inv (rookCheckStep pos.occBB ek c) (rookCheckStep_openFile pos.occBB ek c),
    foldl_openFile_inv (rookMobStep pos.occBB) (rookMobStep_openFile pos.occBB),
    rookFileFold_openFile]
  simp

/-- Witness for C10: one rook on a1 with no black pawns anywhere counts all
eight files and all eight ranks as open. -/
theorem rook_eval_open_file_count_witness :
    0 < bcount 1 ∧ (rook_eval {} 1 0 0 .white).openFile =
      ((List.range 8).countP (fun i => fileBB i &&& 0 == 0) : Int) +
      ((List.range 8).countP (fun i => rankBB i &&& 0 == 0) : Int) :=
  ⟨by decide, rook_eval_open_file_count {} 1 0 0 .white (by decide)⟩

/-- Unmaking right after making restores the original board: make records
the previous position and unmake pops it. -/
theorem unmake_make (b : Board) (m m2 : Move) : unmakeMove (makeMove b m) m2 = b := rfl

/-- The quiescence maximizing loop returns the board it was given whenever
the recursive call does. -/
theorem qLoopMax_board (rec : Board → Int → Int → TTable → Int × Board × TTable)
    (hrec : ∀ b a bb t, (rec b a bb t).2.1 = b) :
    ∀ moves b alpha beta me tt, (qLoopMax rec moves b alpha beta me tt).2.1 = b := by
  intro moves
  induction moves with
  | nil => intro b _ _ _ _; rfl
  | cons m rest ih =>
    intro b alpha beta me tt
    unfold qLoopMax
    dsimp only
    rw [hrec, unmake_make]
    split
    · rfl
    · apply ih

/-- The quiescence minimizing loop returns the board it was given whenever
the recursive call does. -/
theorem qLoopMin_board (rec : Board → Int → Int → TTable → Int × Board × TTable)
    (hrec : ∀ b a bb t, (rec b a bb t).2.1 = b) :
    ∀ moves b alpha beta me tt, (qLoopMin rec moves b alpha beta me tt).2.1 = b := by
  intro moves
  induction moves with
  | nil => intro b _ _ _ _; rfl
  | cons m rest ih =>
    intro b alpha beta me tt
    unfold qLoopMin
    dsimp only
    rw [hrec, unmake_make]
    split
    · rfl
    · apply ih

/-- The minimax maximizing loop returns the board it was given whenever the
recursive call does. -/
theorem mmLoopMax_board (rec : Board → Int → Int → TTable → Int × Board × TTable)
    (hrec : ∀ b a bb t, (rec b a bb t).2.1 = b) :
    ∀ moves b alpha beta me tt, (mmLoopMax rec moves b alpha beta me tt).2.1 = b := by
  intro moves
  induction moves with
  | nil => intro b _ _ _ _; rfl
  | cons m rest ih =>
    intro b alpha beta me tt
    unfold mmLoopMax
    dsimp only
    rw [hrec, unmake_make]
    split
    · rfl
    · apply ih

/-- The minimax minimizing loop returns the board it was given whenever the
recursive call does. -/
theorem mmLoopMin_board (rec : Board → Int → Int → TTable → Int × Board × TTable)
    (hrec : ∀ b a bb t, (rec b a bb t).2.1 = b) :
    ∀ moves b alpha beta me tt, (mmLoopMin rec moves b alpha beta me tt).2.1 = b := by
  intro moves
  induction moves with
  | nil => intro b _ _ _ _; rfl
  | cons m rest ih =>
    intro b alpha beta me tt
    unfold mmLoopMin
    dsimp only
    rw [hrec, unmake_make]
    split
    · rfl
    · apply ih

/-- The move-ordering pass returns the board it was given: every make is
undone before the next iteration. -/
theorem orderLoop_board : ∀ moves b acc, (orderLoop moves b acc).2 = b := by
  intro moves
  induction moves with
  | nil => intro b _; rfl
  | cons m rest ih =>
    intro b acc
    unfold orderLoop
    dsimp only
    rw [unmake_make]
    apply ih

/-- QuiescenceSearch returns the board it was given on every path. -/
theorem quiescence_board : ∀ fuel b alpha beta m tt, (quiescence fuel b alpha beta m tt).2.1 = b := by
  intro fuel
  induction fuel with
  | zero => intro b _ _ _ _; rfl
  | succ n ih =>
    intro b alpha beta m tt
    unfold quiescence
    dsimp only
    split
    · rfl
    · split
      · rfl
      · split
        · rfl
        · split
          · rfl
          · split
            · rfl
            · split
              · exact qLoopMax_board _ (fun x y z w => ih x y z false w) _ _ _ _ _ _
              · exact qLoopMin_board _ (fun x y z w => ih x y z true w) _ _ _ _ _ _

/-- Minimax returns the board it was given on every path. -/
theorem minimax_board : ∀ fuel b d alpha beta m tt, (minimax fuel b d alpha beta m tt).2.1 = b := by
  intro fuel
  induction fuel with
  | zero => intro b _ _ _ _ _; rfl
  | succ n ih =>
    intro b d alpha beta m tt
    unfold minimax
    dsimp only
    split
    · exact quiescence_board n b alpha beta m tt
    · split
      · rfl
      · split
        · rfl
        · split
          · rw [mmLoopMax_board _ (fun x y z w => ih x _ y z false w) _ _ _ _ _ _,
              orderLoop_board]
          · rw [mmLoopMin_board _ (fun x y z w => ih x _ y z true w) _ _ _ _ _ _,
              orderLoop_board]

/-- The root loop of find_best_move returns the board it was given. -/
theorem fbRootLoop_board (fuel dpt : Nat) (c : Color) (beta : Int) :
    ∀ moves b tt alpha bm be, (fbRootLoop fuel dpt c beta moves b tt alpha bm be).board = b := by
  intro moves
  induction moves with
  | nil => intro b _ _ _ _; rfl
  | cons m rest ih =>
    intro b tt alpha bm be
    unfold fbRootLoop
    dsimp only
    split
    · rw [minimax_board, unmake_make]
      apply ih
    · rw [minimax_board, unmake_make]
      apply ih

/-- The iterative-deepening loop of find_best_move returns the board it was
given. -/
theorem fbDepthLoop_board (fuel : Nat) (c : Color) :
    ∀ rem dpt b tt bm be, (fbDepthLoop fuel c rem dpt b tt bm be).2.1 = b := by
  intro rem
  induction rem with
  | zero => intro _ b _ _ _; rfl
  | succ n ih =>
    intro dpt b tt bm be
    unfold fbDepthLoop
    dsimp only
    split
    · rfl
    · rw [ih, fbRootLoop_board]

/-- C6.  Make and unmake are balanced on every path: QuiescenceSearch and
Minimax hand back exactly the board they borrowed, and after find_best_move
the position hash of the shared board equals the hash before the call
(indeed the whole board is unchanged; the noisy-move check probes a copy). -/
theorem search_preserves_board :
    (∀ fuel b alpha beta m tt, (quiescence fuel b alpha beta m tt).2.1 = b) ∧
    (∀ fuel b d alpha beta m tt, (minimax fuel b d alpha beta m tt).2.1 = b) ∧
    (∀ junk fuel b d c tt,
      posHash ((find_best_move junk fuel b d c tt).2.1).pos = posHash b.pos) :=
  ⟨quiescence_board, minimax_board,
    fun junk fuel b d c tt => by unfold find_best_move; rw [fbDepthLoop_board]⟩

/-- Storing an entry flagged exact keeps every table entry flagged exact. -/
theorem ttStore_allExact (tt : TTable) (hsh : Nat) (v : Int) (d : Nat)
    (h : ttAllExact tt = true) : ttAllExact (ttStore tt hsh ⟨v, d, true⟩) = true := by
  unfold ttStore
  unfold ttAllExact at h ⊢
  rw [List.all_eq_true] at h
  split
  · rw [List.all_eq_true]
    intro p hp
    obtain ⟨q, hq, hEq⟩ := List.mem_map.mp hp
    subst hEq
    split
    · rfl
    · exact h q hq
  · rw [List.all_eq_true]
    intro p hp
    rcases List.mem_cons.mp hp with h1 | h2
    · subst h1
      rfl
    · exact h p h2

/-- The quiescence maximizing loop never writes to the table whenever the
recursive call does not. -/
theorem qLoopMax_tt (rec : Board → Int → Int → TTable → Int × Board × TTable)
    (hrec : ∀ b a bb t, (rec b a bb t).2.2 = t) :
    ∀ moves b alpha beta me tt, (qLoopMax rec moves b alpha beta me tt).2.2 = tt := by
  intro moves
  induction moves with
  | nil => intro b _ _ _ _; rfl
  | cons m rest ih =>
    intro b alpha beta me tt
    unfold qLoopMax
    dsimp only
    rw [hrec]
    split
    · rfl
    · apply ih

/-- The quiescence minimizing loop never writes to the table whenever the
recursive call does not. -/
theorem qLoopMin_tt (rec : Board → Int → Int → TTable → Int × Board × TTable)
    (hrec : ∀ b a bb t, (rec b a bb t).2.2 = t) :
    ∀ moves b alpha beta me tt, (qLoopMin rec moves b alpha beta me tt).2.2 = tt := by
  intro moves
  induction moves with
  | nil => intro b _ _ _ _; rfl
  | cons m rest ih =>
    intro b alpha beta me tt
    unfold qLoopMin
    dsimp only
    rw [hrec]
    split
    · rfl
    · apply ih

/-- QuiescenceSearch performs no store: the table comes back unchanged. -/
theorem quiescence_tt : ∀ fuel b alpha beta m tt, (quiescence fuel b alpha beta m tt).2.2 = tt := by
  intro fuel
  induction fuel with
  | zero => intro b _ _ _ _; rfl
  | succ n ih =>
    intro b alpha beta m tt
    unfold quiescence
    dsimp only
    split
    · rfl
    · split
      · rfl
      · split
        · rfl
        · split
          · rfl
          · split
            · rfl
            · split
              · exact qLoopMax_tt _ (fun x y z w => ih x y z false w) _ _ _ _ _ _
              · exact qLoopMin_tt _ (fun x y z w => ih x y z true w) _ _ _ _ _ _

/-- The minimax maximizing loop preserves the all-exact invariant whenever
the recursive call does. -/
theorem mmLoopMax_allExact (rec : Board → Int → Int → TTable → Int × Board × TTable)
    (hrec : ∀ b a bb t, ttAllExact t = true → ttAllExact (rec b a bb t).2.2 = true) :
    ∀ moves b alpha beta me tt, ttAllExact tt = true →
      ttAllExact (mmLoopMax rec moves b alpha beta me tt).2.2 = true := by
  intro moves
  induction moves with
  | nil => intro b _ _ _ _ h; exact h
  | cons m rest ih =>
    intro b alpha beta me tt h
    unfold mmLoopMax
    dsimp only
    split
    · exact hrec _ _ _ _ h
    · exact ih _ _ _ _ _ (hrec _ _ _ _ h)

/-- The minimax minimizing loop preserves the all-exact invariant whenever
the recursive call does. -/
theorem mmLoopMin_allExact (rec : Board → Int → Int → TTable → Int × Board × TTable)
    (hrec : ∀ b a bb t, ttAllExact t = true → ttAllExact (rec b a bb t).2.2 = true) :
    ∀ moves b alpha beta me tt, ttAllExact tt = true →
      ttAllExact (mmLoopMin rec moves b alpha beta me tt).2.2 = true := by
  intro moves
  induction moves with
  | nil => intro b _ _ _ _ h; exact h
  | cons m rest ih =>
    intro b alpha beta me tt h
    unfold mmLoopMin
    dsimp only
    split
    · exact hrec _ _ _ _ h
    · exact ih _ _ _ _ _ (hrec _ _ _ _ h)

/-- Every store of Minimax passes the exact flag, so the all-exact invariant
is preserved. -/
theorem minimax_allExact : ∀ fuel b d alpha beta m tt, ttAllExact tt = true →
    ttAllExact (minimax fuel b d alpha beta m tt).2.2 = true := by
  intro fuel
  induction fuel with
  | zero => intro b _ _ _ _ _ h; exact h
  | succ n ih =>
    intro b d alpha beta m tt h
    unfold minimax
    dsimp only
    split
    · rw [quiescence_tt]
      exact h
    · split
      · exact h
      · split
        · exact h
        · split
          · refine ttStore_allExact _ _ _ _ ?hmax
            refine mmLoopMax_allExact _ ?hrmax _ _ _ _ _ _ h
            intro x y z w hw
            exact ih x (d - 1) y z false w hw
          · refine ttStore_allExact _ _ _ _ ?hmin
            refine mmLoopMin_allExact _ ?hrmin _ _ _ _ _ _ h
            intro x y z w hw
            exact ih x (d - 1) y z true w hw

/-- The root loop of find_best_move preserves the all-exact invariant. -/
theorem fbRootLoop_allExact (fuel dpt : Nat) (c : Color) (beta : Int) :
    ∀ moves b tt alpha bm be, ttAllExact tt = true →
      ttAllExact (fbRootLoop fuel dpt c beta moves b tt alpha bm be).tt = true := by
  intro moves
  induction moves with
  | nil => intro b _ _ _ _ h; exact h
  | cons m rest ih =>
    intro b tt alpha bm be h
    unfold fbRootLoop
    dsimp only
    split
    · exact ih _ _ _ _ _ (minimax_allExact _ _ _ _ _ _ _ h)
    · exact ih _ _ _ _ _ (minimax_allExact _ _ _ _ _ _ _ h)

/-- The iterative-deepening loop preserves the all-exact invariant: the
per-depth store passes true. -/
theorem fbDepthLoop_allExact (fuel : Nat) (c : Color) :
    ∀ rem dpt b tt bm be, ttAllExact tt = true →
      ttAllExact (fbDepthLoop fuel c rem dpt b tt bm be).2.2 = true := by
  intro rem
  induction rem with
  | zero => intro _ b _ _ _ h; exact h
  | succ n ih =>
    intro dpt b tt bm be h
    unfold fbDepthLoop
    dsimp only
    split
    · exact h
    · exact ih _ _ _ _ _ (ttStore_allExact _ _ _ _ (fbRootLoop_allExact _ _ _ _ _ _ _ _ _ _ h))

/-- C8.  Starting from a table whose entries are all flagged exact, every
search keeps that invariant: QuiescenceSearch performs no store at all, and
every store of Minimax and of find_best_move passes true for the flag. -/
theorem transposition_entries_all_exact :
    (∀ fuel b alpha beta m tt, (quiescence fuel b alpha beta m tt).2.2 = tt) ∧
    (∀ fuel b d alpha beta m tt, ttAllExact tt = true →
      ttAllExact (minimax fuel b d alpha beta m tt).2.2 = true) ∧
    (∀ junk fuel b d c tt, ttAllExact tt = true →
      ttAllExact (find_best_move junk fuel b d c tt).2.2 = true) :=
  ⟨quiescence_tt, minimax_allExact,
    fun junk fuel b d c tt h => by
      unfold find_best_move
      exact fbDepthLoop_allExact fuel c d 1 b tt default junk h⟩

/-- Witness for C8: from the empty table, the table produced by the concrete
depth-1 search holds only exact entries. -/
theorem transposition_entries_all_exact_witness :
    ttAllExact ([] : TTable) = true ∧
    ttAllExact ((find_best_move (-1000000) 20 searchB 1 .black []).2.2) = true :=
  ⟨by decide, transposition_entries_all_exact.2.2 (-1000000) 20 searchB 1 .black [] (by decide)⟩

/-- A decided game never reports the result win: the rules model reports
lose for a checkmated side to move and draw otherwise. -/
theorem gameResult_ne_win (b : Board) : (isGameOver b).2 ≠ GameResult.win := by
  unfold isGameOver
  split_ifs <;> simp

/-- C1 amended.  For every position whose game is over, static_eval returns
0 for a draw and otherwise (checkmate of the side to move, the only non-draw
result) returns -99999 when constructed for white and +99999 when
constructed for black, regardless of which side is mated. -/
theorem static_eval_terminal (b : Board) (side : Color)
    (h : (isGameOver b).2 ≠ GameResult.none) :
    static_eval b side = if (isGameOver b).2 = GameResult.draw then 0
      else if side = Color.white then -99999 else 99999 := by
  have hw := gameResult_ne_win b
  unfold static_eval
  cases hr : (isGameOver b).2 with
  | none => exact absurd hr h
  | win => exact absurd hr hw
  | lose => cases side <;> simp
  | draw => simp

/-- Witness for C1: the mated-white board is decided and static_eval for
white takes the sentinel value given by the amended description. -/
theorem static_eval_terminal_witness :
    (isGameOver mateWhiteB).2 ≠ GameResult.none ∧
    static_eval mateWhiteB Color.white = (if (isGameOver mateWhiteB).2 = GameResult.draw then 0
      else if Color.white = Color.white then -99999 else 99999) :=
  ⟨by decide, static_eval_terminal mateWhiteB Color.white (by decide)⟩

/-- Counterexample for C1 as stated.  On mateBlackB the side to move, black,
is checkmated: the game result is a win for white, yet static_eval
constructed for white returns -99999 instead of +99999 (the sentinel sign
follows the stored side alone, never the mated side).  Moreover the claimed
FEN 8/8/8/8/8/4k3/4q3/4K3 b - - 0 1 (board s4B) has black, not white, to
move: the game is not over there and static_eval for white is the heuristic
score (-1833), not -99999. -/
theorem static_eval_terminal_counterexample :
    (isGameOver mateBlackB).2 = GameResult.lose ∧ mateBlackB.pos.stm = Color.black ∧
    static_eval mateBlackB Color.white = -99999 ∧
    (isGameOver s4B).2 = GameResult.none ∧ static_eval s4B Color.white ≠ -99999 := by decide

/-- A board without legal moves is decided: the half-move, material and
repetition draws are reported first, and otherwise the empty move list means
checkmate or stalemate. -/
theorem legalMoves_empty_gameOver (b : Board) (h : legalMoves b = []) :
    (isGameOver b).1 ≠ GameResultReason.none := by
  unfold legalMoves at h
  unfold isGameOver
  split_ifs <;> simp_all

/-- C2 amended.  When the board has no legal moves, Minimax (any depth, any
window, either flag) returns the terminal quiescence stand-pat, which is the
static evaluation of the position for its side to move (so the mate or draw
sentinel): the game-over entry check routes to QuiescenceSearch before the
empty-move branch is ever reached, and that branch would anyway produce 0,
because std::numeric_limits of int has no infinity and the infinity() call
yields 0. -/
theorem minimax_no_moves (fuel : Nat) (b : Board) (depth : Nat) (alpha beta : Int)
    (m : Bool) (tt : TTable) (h : legalMoves b = []) :
    (minimax (fuel + 2) b depth alpha beta m tt).1 = static_eval b b.pos.stm := by
  have hg := legalMoves_empty_gameOver b h
  unfold minimax
  split
  · unfold quiescence
    dsimp only
    split
    · rfl
    · next hc => exact absurd hg hc
  · next hc => simp [hg] at hc

/-- Witness for C2: the mated-white board has no legal moves and the
minimizing Minimax call returns its static evaluation. -/
theorem minimax_no_moves_witness :
    legalMoves mateWhiteB = [] ∧
    (minimax 2 mateWhiteB 1 0 0 false []).1 = static_eval mateWhiteB mateWhiteB.pos.stm :=
  ⟨by decide, minimax_no_moves 0 mateWhiteB 1 0 0 false [] (by decide)⟩

/-- Counterexample for C2 as stated.  The mated-white board has no legal
moves, and Minimax with maximizing_player false returns -99999: the mate
sentinel of the quiescence stand-pat, not a plus infinity lying above every
reachable score (and the empty-move branch itself would return
int_infinity, which is 0, not an infinity). -/
theorem minimax_no_moves_counterexample :
    legalMoves mateWhiteB = [] ∧ (minimax 20 mateWhiteB 1 0 0 false []).1 = -99999 := by decide

/-- C3.  Failing input for the root comparator claim: on searchB with
root_color black, the pawn push to e4 (move 36 to 28, child value 1205) and
the king move to g8 (move 63 to 62, child value 1210) are both legal, the
values differ, and find_best_move returns the move of larger child value:
the root tracks the best move with the max comparator (replace when the
value is at least the incumbent) for black exactly as for white, and it is
alpha, never beta, that is tightened between siblings. -/
theorem find_best_move_black_max_comparator :
    (find_best_move (-1000000) 20 searchB 1 Color.black []).1 =
      ({ fromSq := 63, toSq := 62 } : Move) ∧
    (legalMoves searchB).contains { fromSq := 36, toSq := 28 } = true ∧
    (minimax 20 (makeMove searchB { fromSq := 36, toSq := 28 }) 0 0 0 true []).1 <
      (minimax 20 (makeMove searchB { fromSq := 63, toSq := 62 }) 0 0 0 true []).1 := by decide

/-- C4.  The outer best_eval of find_best_move is read before it is ever
assigned (the branch-local declarations only initialize immediately dead
shadows), so the returned move depends on the indeterminate initial value:
with the same board, depth and color, initial value -1000000 yields the king
move while initial value 1000000 yields the default-constructed move. -/
theorem find_best_move_uninitialized_best_eval :
    (find_best_move (-1000000) 20 searchB 1 Color.black []).1 ≠
      (find_best_move 1000000 20 searchB 1 Color.black []).1 := by decide

/-- C7.  At the standard starting position the static evaluation is exactly
0 for either choice of the side argument. -/
theorem static_eval_startpos_balance :
    static_eval startB Color.white = 0 ∧ static_eval startB Color.black = 0 := by decide

end Chess
